import Mathlib

/-!
Formal model of the `orbit_input_core` input-state and temporal-history
engine.

The repository ships only the trait contract (src/src/traits/state.rs,
src/src/traits/runtime.rs, src/src/traits/keys.rs); the concrete engine the
specification describes (KeyStateTable, EventHistoryBuffer, StateUpdater,
TemporalQueryEngine) has no implementation under src.  The behavioural
definitions below are therefore modelled from the specification text, while
the signature-level facts (which operations are fallible or asynchronous,
which are read-only, and how the traits nest) are transcribed directly from
the trait declarations in the source.

Timestamps and durations are modelled as natural numbers (a monotonic
instant count); Rust `Duration` subtraction of instants is total here via
truncated subtraction, matching the monotonic-clock caller contract.
Frequencies (`f32` in the trait) are modelled as rationals.
-/

set_option linter.unnecessarySimpa false
set_option linter.unusedSectionVars false

namespace Orbit

/-- Modelled from the spec: `PhysicalState` (spec section 3) — the two-valued
Down/Up signal reported by the producer.  Missing from src: the repository
declares only generic state types `S`; the spec fixes this concrete domain. -/
inductive PhysicalState : Type
  | Down
  | Up
  deriving DecidableEq, Hashable

/-- Modelled from the spec: `LatchedState` (spec section 3) — the per-key
latched value held by `KeyStateTable`.  Missing from src: no concrete latched
state type is defined in the repository. -/
inductive LatchedState : Type
  | Released
  | JustPressed
  | Held
  | JustReleased
  deriving DecidableEq, Hashable

/-- Modelled from the spec: `Event` (spec section 3) — immutable record
`{key, state : PhysicalState, timestamp}`, mirroring the accessors of the
`InputEvent` trait (state.rs lines 47-62).  Missing from src: only the trait
is declared, no concrete event record. -/
structure Event (K : Type) where
  key : K
  state : PhysicalState
  timestamp : Nat
  deriving DecidableEq, Hashable

/-- Modelled from the spec: one row of `KeyStateTable` (spec section 4.1) —
the latched value, the press-start timestamp, and the last-seen physical
state used for edge idempotence. -/
structure KeyEntry (K : Type) where
  key : K
  latched : LatchedState
  pressTs : Option Nat
  lastSeen : PhysicalState
  deriving DecidableEq, Hashable

/-- Modelled from the spec: the engine state (spec sections 2 and 3) — the
`KeyStateTable` (association list of per-key entries plus the `last_pressed`
marker) and the `EventHistoryBuffer` (oldest-first event log).  Missing from
src: the repository defines no concrete engine structure. -/
structure Engine (K : Type) where
  table : List (KeyEntry K)
  lastPressedKey : Option K
  history : List (Event K)

/-- Modelled from the spec: engine construction (spec section 3 lifecycle) —
both the table and the history start empty. -/
def Engine.empty (K : Type) : Engine K :=
  ⟨[], none, []⟩

variable {K : Type} [DecidableEq K]

/-- Lookup of the table row for a key, if the key has been seen. -/
def Engine.entry (e : Engine K) (k : K) : Option (KeyEntry K) :=
  e.table.find? (fun en => decide (en.key = k))

/-- Latched state of a key; keys never seen are `Released` (spec section 3). -/
def Engine.latched (e : Engine K) (k : K) : LatchedState :=
  ((e.entry k).map KeyEntry.latched).getD LatchedState.Released

/-- Press-start timestamp of a key, if any. -/
def Engine.pressTs (e : Engine K) (k : K) : Option Nat :=
  (e.entry k).bind KeyEntry.pressTs

/-- Replaces the row for `en.key` in the table, or appends it if absent. -/
def setEntry : List (KeyEntry K) → KeyEntry K → List (KeyEntry K)
  | [], en => [en]
  | e :: es, en => if e.key = en.key then en :: es else e :: setEntry es en

/-- Modelled from the spec: `KeyStateTable.set_key` (spec section 4.1), the
update entry point declared by `InputStateExt.set_key` (state.rs lines
104-107).  Transitions only if the physical state differs from the last-seen
one (idempotent on repeats); `Up→Down` sets `JustPressed` and records the
press timestamp and the `last_pressed` marker; `Down→Up` sets `JustReleased`
and clears the press timestamp. -/
def Engine.set_key (e : Engine K) (k : K) (s : PhysicalState) (now : Nat) : Engine K :=
  if (e.entry k).map KeyEntry.lastSeen = some s then e
  else
    match s with
    | PhysicalState.Down =>
        { e with
          table := setEntry e.table ⟨k, LatchedState.JustPressed, some now, s⟩
          lastPressedKey := some k }
    | PhysicalState.Up =>
        { e with
          table := setEntry e.table ⟨k, LatchedState.JustReleased, none, s⟩ }

/-- Modelled from the spec: `advance_tick` (spec section 4.1) — collapses
`JustPressed→Held` and `JustReleased→Released` for all keys at the tick
boundary.  Missing from src: the trait contract has no advance-tick method;
the spec introduces it as a required addition (spec section 9). -/
def Engine.advance_tick (e : Engine K) : Engine K :=
  { e with
    table := e.table.map (fun en =>
      { en with latched :=
          match en.latched with
          | LatchedState.JustPressed => LatchedState.Held
          | LatchedState.JustReleased => LatchedState.Released
          | s => s }) }

/-- Modelled from the spec: `StateUpdater.ingest` (spec section 4.4) — the
single entry point combining `KeyStateTable.set_key` and
`EventHistoryBuffer.append` as one step, with a caller-supplied timestamp. -/
def Engine.ingest (e : Engine K) (k : K) (s : PhysicalState) (t : Nat) : Engine K :=
  { e.set_key k s t with history := e.history ++ [⟨k, s, t⟩] }

/-- Modelled from the spec: `reset` (spec section 4.1) — forces all keys to
`Released`, clears press timestamps and the `last_pressed` marker, and does
not touch the history. -/
def Engine.reset (e : Engine K) : Engine K :=
  { e with table := [], lastPressedKey := none }

/-- true for `{JustPressed, Held}` (spec section 4.1). -/
def Engine.is_pressed (e : Engine K) (k : K) : Bool :=
  match e.latched k with
  | LatchedState.JustPressed => true
  | LatchedState.Held => true
  | _ => false

/-- true for `{JustReleased, Released}` (spec section 4.1). -/
def Engine.is_released (e : Engine K) (k : K) : Bool :=
  match e.latched k with
  | LatchedState.JustReleased => true
  | LatchedState.Released => true
  | _ => false

/-- true only in `JustPressed` (spec section 4.1). -/
def Engine.is_just_press (e : Engine K) (k : K) : Bool :=
  decide (e.latched k = LatchedState.JustPressed)

/-- true only in `JustReleased` (spec section 4.1). -/
def Engine.is_just_released (e : Engine K) (k : K) : Bool :=
  decide (e.latched k = LatchedState.JustReleased)

/-- Modelled from the spec: `time_pressed` (spec section 4.1) — `now` minus
the press timestamp if currently pressed, else none. -/
def Engine.time_pressed (e : Engine K) (now : Nat) (k : K) : Option Nat :=
  if e.is_pressed k then (e.pressTs k).map (fun t => now - t) else none

/-- Modelled from the spec: `active_combo` (spec section 4.1) — logical AND
of `is_pressed` over the set; the empty combo is vacuously true. -/
def Engine.active_combo (e : Engine K) (combo : List K) : Bool :=
  combo.all (fun k => e.is_pressed k)

/-- Modelled from the spec: `any_pressed` (spec section 4.1). -/
def Engine.any_pressed (e : Engine K) : Bool :=
  e.table.any (fun en =>
    match en.latched with
    | LatchedState.JustPressed => true
    | LatchedState.Held => true
    | _ => false)

/-- Modelled from the spec: `keys_pressed` (spec section 4.1). -/
def Engine.keys_pressed (e : Engine K) : List K :=
  (e.table.filter (fun en =>
    match en.latched with
    | LatchedState.JustPressed => true
    | LatchedState.Held => true
    | _ => false)).map KeyEntry.key

/-- Modelled from the spec: `last_pressed` (spec section 4.1) — key of the
most recent `JustPressed` transition since the last reset. -/
def Engine.last_pressed (e : Engine K) : Option K :=
  e.lastPressedKey

/-- Modelled from the spec: `last_event` (spec section 4.2) — the newest
event of the oldest-first history, as declared by `WithHistoryExt.last_event`. -/
def Engine.last_event (e : Engine K) : Option (Event K) :=
  e.history.getLast?

/-- Modelled from the spec: `clear_history` (spec section 4.2). -/
def Engine.clear_history (e : Engine K) : Engine K :=
  { e with history := [] }

/-- Modelled from the spec: `trim_history` (spec section 4.2) — retains only
the `m` most recent events, evicting oldest first. -/
def Engine.trim_history (e : Engine K) (m : Nat) : Engine K :=
  { e with history := e.history.drop (e.history.length - m) }

/-- Modelled from the spec: `undo_last` (spec section 4.2) — removes and
returns the newest event, or none if the history is empty. -/
def Engine.undo_last (e : Engine K) : Option (Event K) × Engine K :=
  match e.history.reverse with
  | [] => (none, e)
  | a :: rest => (some a, { e with history := rest.reverse })

/-- Boolean test: the event is a `Down` event for key `k`. -/
def downFor (k : K) (ev : Event K) : Bool :=
  decide (ev.key = k) && decide (ev.state = PhysicalState.Down)

/-- Chronological stream of `Down`-state events of a history, projected to
their keys (spec section 4.3, `match_sequence`). -/
def downKeys (h : List (Event K)) : List K :=
  (h.filter (fun ev => decide (ev.state = PhysicalState.Down))).map Event.key

/-- All `Down` events of key `k`, oldest first. -/
def Engine.downsOf (e : Engine K) (k : K) : List (Event K) :=
  e.history.filter (downFor k)

/-- Modelled from the spec: `since_last_event` (spec section 4.3) — `now`
minus the newest timestamp, with the documented zero sentinel on an empty
history. -/
def Engine.since_last_event (e : Engine K) (now : Nat) : Nat :=
  match e.history.getLast? with
  | some ev => now - ev.timestamp
  | none => 0

/-- Modelled from the spec: `since_key_pressed` (spec section 4.3) — `now`
minus the timestamp of the most recent `Down` event for the key, found by a
backward scan; none if no such event exists. -/
def Engine.since_key_pressed (e : Engine K) (now : Nat) (k : K) : Option Nat :=
  match e.history.reverse.find? (downFor k) with
  | some ev => some (now - ev.timestamp)
  | none => none

/-- Modelled from the spec: `delta_between` (spec section 4.3) — newer minus
older of the two most recent `Down` events for the key. -/
def Engine.delta_between (e : Engine K) (k : K) : Option Nat :=
  match (e.downsOf k).reverse with
  | a :: b :: _ => some (a.timestamp - b.timestamp)
  | _ => none

/-- Modelled from the spec: `is_double_tap` (spec section 4.3) — true iff
`delta_between` is within the threshold. -/
def Engine.is_double_tap (e : Engine K) (k : K) (threshold : Nat) : Bool :=
  match e.delta_between k with
  | some d => decide (d ≤ threshold)
  | none => false

/-- Consecutive gaps of a timestamp list. -/
def gaps : List Nat → List Nat
  | a :: b :: rest => (b - a) :: gaps (b :: rest)
  | _ => []

/-- Modelled from the spec: `average_press_interval` (spec section 4.3) —
arithmetic mean (integer division of durations) of consecutive `Down`-event
gaps; none with fewer than two presses. -/
def Engine.average_press_interval (e : Engine K) (k : K) : Option Nat :=
  let g := gaps ((e.downsOf k).map Event.timestamp)
  if g.length = 0 then none else some (g.sum / g.length)

/-- Modelled from the spec: the single forward two-pointer scan of
`match_sequence` (spec section 4.3) — advances the pattern pointer on each
matching stream element. -/
def subseqScan : List K → List K → Bool
  | [], _ => true
  | _ :: _, [] => false
  | p :: ps, k :: ks => if p = k then subseqScan ps ks else subseqScan (p :: ps) ks

/-- Modelled from the spec: `match_sequence` (spec section 4.3) — runs the
forward scan of the pattern against the `Down`-event key stream. -/
def Engine.match_sequence (e : Engine K) (pattern : List K) : Bool :=
  subseqScan pattern (downKeys e.history)

/-- Greedy forward scan collecting the timestamps of the earliest subsequence
match of `pattern` against the `Down` events of the stream. -/
def scanTimes : List K → List (Event K) → Option (List Nat)
  | [], _ => some []
  | _ :: _, [] => none
  | p :: ps, ev :: evs =>
      if decide (ev.state = PhysicalState.Down) && decide (ev.key = p) then
        (scanTimes ps evs).map (fun ts => ev.timestamp :: ts)
      else
        scanTimes (p :: ps) evs

/-- Modelled from the spec: `match_sequence_in_time` (spec section 4.3) —
the subsequence match additionally requiring last minus first matched
timestamp within the window, on the earliest match. -/
def Engine.match_sequence_in_time (e : Engine K) (pattern : List K) (window : Nat) : Bool :=
  match scanTimes pattern e.history with
  | none => false
  | some [] => true
  | some (t :: ts) => decide (ts.getLastD t - t ≤ window)

/-- Timestamp of the most recent `Down` event for a key, if any. -/
def Engine.lastDownTs (e : Engine K) (k : K) : Option Nat :=
  ((e.downsOf k).getLast?).map Event.timestamp

/-- Modelled from the spec: `simultaneous_combo` (spec section 4.3) — every
combo key currently pressed per the table, and the spread of their most
recent `Down` timestamps within the tolerance; the empty combo is vacuously
true. -/
def Engine.simultaneous_combo (e : Engine K) (combo : List K) (tolerance : Nat) : Bool :=
  match combo.mapM (fun k => e.lastDownTs k) with
  | none => false
  | some [] => true
  | some (t :: ts) =>
      combo.all (fun k => e.is_pressed k) &&
      decide ((t :: ts).foldl max t - (t :: ts).foldl min t ≤ tolerance)

/-- Modelled from the spec: `find_last_n` (spec section 4.3) — the last `n`
events of any physical state for the key, oldest-to-newest. -/
def Engine.find_last_n (e : Engine K) (k : K) (n : Nat) : List (Event K) :=
  (((e.history.filter (fun ev => decide (ev.key = k))).reverse).take n).reverse

/-- Deduplication scan keeping the first occurrence of each key. -/
def firstOccsAux (seen : List K) : List K → List K
  | [] => []
  | k :: ks => if k ∈ seen then firstOccsAux seen ks else k :: firstOccsAux (k :: seen) ks

/-- First occurrences of a key list, in order of first appearance. -/
def firstOccs (l : List K) : List K :=
  firstOccsAux [] l

/-- Modelled from the spec: `keys_in_last` (spec section 4.3) — distinct
keys with at least one event in the closed window ending now. -/
def Engine.keys_in_last (e : Engine K) (now : Nat) (d : Nat) : List K :=
  firstOccs ((e.history.filter (fun ev => decide (now - d ≤ ev.timestamp))).map Event.key)

/-- Modelled from the spec: `occurred_recently` (spec section 4.3) — the key
appears among the most recent `within` global events. -/
def Engine.occurred_recently (e : Engine K) (k : K) (within : Nat) : Bool :=
  (e.history.reverse.take within).any (fun ev => decide (ev.key = k))

/-- Modelled from the spec: `count_recent` (spec section 4.3) — occurrence
count of the key within the most recent `within` global events. -/
def Engine.count_recent (e : Engine K) (k : K) (within : Nat) : Nat :=
  (e.history.reverse.take within).countP (fun ev => decide (ev.key = k))

/-- Modelled from the spec: `total_presses` (spec section 4.3) — count of
`Down` events for the key across the full history. -/
def Engine.total_presses (e : Engine K) (k : K) : Nat :=
  (e.downsOf k).length

/-- Modelled from the spec: `press_frequency` (spec section 4.3) — presses
divided by the span from the oldest event to now; zero on an empty history
or a zero span. -/
def Engine.press_frequency (e : Engine K) (now : Nat) (k : K) : ℚ :=
  match e.history.head? with
  | none => 0
  | some ev =>
      let span := now - ev.timestamp
      if span = 0 then 0 else (e.total_presses k : ℚ) / (span : ℚ)

/-- Modelled from the spec: `most_frequent_key` (spec section 4.3) — key with
maximum `total_presses`, ties broken by earliest first occurrence. -/
def Engine.most_frequent_key (e : Engine K) : Option K :=
  (firstOccs (e.history.map Event.key)).foldl
    (fun best k =>
      match best with
      | none => some k
      | some b => if e.total_presses b < e.total_presses k then some k else best)
    none

/-- Modelled from the spec: `average_input_speed` (spec section 4.3) — all
events divided by the span, zero on an empty history or a zero span. -/
def Engine.average_input_speed (e : Engine K) (now : Nat) : ℚ :=
  match e.history.head? with
  | none => 0
  | some ev =>
      let span := now - ev.timestamp
      if span = 0 then 0 else (e.history.length : ℚ) / (span : ℚ)

/-- Modelled from the spec: `replay` (spec section 4.3) — a finite forward
sequence over the history taken at call time. -/
def Engine.replay (e : Engine K) : List (Event K) :=
  e.history

/-! ### Uniform dispatcher over the temporal queries

The temporal queries of `WithHistoryExt` (state.rs lines 249-392) all take a
shared `&self` receiver; a method call is embedded as a function returning
its output together with the engine it leaves behind. -/

/-- Possible outputs of a temporal query. -/
inductive QueryOut (K : Type) where
  | dur (d : Nat)
  | odur (d : Option Nat)
  | flag (b : Bool)
  | events (l : List (Event K))
  | keys (l : List K)
  | count (n : Nat)
  | rate (q : ℚ)
  | okey (k : Option K)

/-- One temporal query of `WithHistoryExt` together with its arguments
(state.rs lines 249-392). -/
inductive QueryOp (K : Type) where
  | since_last_event
  | since_key_pressed (k : K)
  | delta_between (k : K)
  | is_double_tap (k : K) (threshold : Nat)
  | average_press_interval (k : K)
  | match_sequence (pattern : List K)
  | match_sequence_in_time (pattern : List K) (window : Nat)
  | simultaneous_combo (combo : List K) (tolerance : Nat)
  | find_last_n (k : K) (n : Nat)
  | keys_in_last (d : Nat)
  | occurred_recently (k : K) (within : Nat)
  | count_recent (k : K) (within : Nat)
  | total_presses (k : K)
  | press_frequency (k : K)
  | most_frequent_key
  | average_input_speed
  | replay

/-- Embedding of a temporal-query method call: the computed output paired
with the engine state after the call. -/
def run_query (q : QueryOp K) (e : Engine K) (now : Nat) : QueryOut K × Engine K :=
  match q with
  | QueryOp.since_last_event => (QueryOut.dur (e.since_last_event now), e)
  | QueryOp.since_key_pressed k => (QueryOut.odur (e.since_key_pressed now k), e)
  | QueryOp.delta_between k => (QueryOut.odur (e.delta_between k), e)
  | QueryOp.is_double_tap k threshold => (QueryOut.flag (e.is_double_tap k threshold), e)
  | QueryOp.average_press_interval k => (QueryOut.odur (e.average_press_interval k), e)
  | QueryOp.match_sequence pattern => (QueryOut.flag (e.match_sequence pattern), e)
  | QueryOp.match_sequence_in_time pattern window =>
      (QueryOut.flag (e.match_sequence_in_time pattern window), e)
  | QueryOp.simultaneous_combo combo tolerance =>
      (QueryOut.flag (e.simultaneous_combo combo tolerance), e)
  | QueryOp.find_last_n k n => (QueryOut.events (e.find_last_n k n), e)
  | QueryOp.keys_in_last d => (QueryOut.keys (e.keys_in_last now d), e)
  | QueryOp.occurred_recently k within => (QueryOut.flag (e.occurred_recently k within), e)
  | QueryOp.count_recent k within => (QueryOut.count (e.count_recent k within), e)
  | QueryOp.total_presses k => (QueryOut.count (e.total_presses k), e)
  | QueryOp.press_frequency k => (QueryOut.rate (e.press_frequency now k), e)
  | QueryOp.most_frequent_key => (QueryOut.okey e.most_frequent_key, e)
  | QueryOp.average_input_speed => (QueryOut.rate (e.average_input_speed now), e)
  | QueryOp.replay => (QueryOut.events e.replay, e)

/-! ### Mutating operations and the history ordering invariant -/

/-- One history- or table-mutating operation of the engine (spec section 3,
lifecycle). -/
inductive MutOp (K : Type) where
  | ingest (k : K) (s : PhysicalState) (t : Nat)
  | advance
  | reset
  | clear
  | trim (m : Nat)
  | undo

/-- Applies a mutating operation to the engine. -/
def applyMut : MutOp K → Engine K → Engine K
  | MutOp.ingest k s t, e => e.ingest k s t
  | MutOp.advance, e => e.advance_tick
  | MutOp.reset, e => e.reset
  | MutOp.clear, e => e.clear_history
  | MutOp.trim m, e => e.trim_history m
  | MutOp.undo, e => (e.undo_last).2

/-- Caller contract of an operation: `ingest` must supply a timestamp no
smaller than every timestamp already in the history (spec sections 3 and
4.2: appends arrive in non-decreasing timestamp order); every other
operation is unconditional. -/
def tsOk : MutOp K → Engine K → Prop
  | MutOp.ingest _ _ t, e => ∀ ev ∈ e.history, ev.timestamp ≤ t
  | _, _ => True

/-- Ordering of events by timestamp. -/
def tsLE (a b : Event K) : Prop :=
  a.timestamp ≤ b.timestamp

instance : IsTrans (Event K) tsLE :=
  ⟨fun _ _ _ => Nat.le_trans⟩

instance : DecidableRel (tsLE (K := K)) :=
  fun a b => inferInstanceAs (Decidable (a.timestamp ≤ b.timestamp))

/-- Adjacent events of the history are in non-decreasing timestamp order
(spec section 8, monotonic history). -/
def Chronological (h : List (Event K)) : Prop :=
  List.Chain' tsLE h

/-! ### Signature shapes of the trait surface

Transcribed from the source: for each method of the three traits, whether
its declared return type is fallible (a `Result`) and whether it is
asynchronous (a `Future`).  Option-returning queries are not fallible: the
absent case is a defined result, not a raised failure. -/

/-- Declared signature shape of one trait method. -/
structure OpSig where
  name : String
  fallible : Bool
  asynchronous : Bool
  deriving DecidableEq

/-- Method signatures of `InputStateExt` (state.rs lines 99-169): all return
plain values, none is async. -/
def inputStateExtOps : List OpSig :=
  [⟨"set_key", false, false⟩, ⟨"is_just_press", false, false⟩,
   ⟨"is_pressed", false, false⟩, ⟨"is_released", false, false⟩,
   ⟨"is_just_released", false, false⟩, ⟨"time_pressed", false, false⟩,
   ⟨"active_combo", false, false⟩, ⟨"any_pressed", false, false⟩,
   ⟨"last_pressed", false, false⟩, ⟨"keys_pressed", false, false⟩,
   ⟨"reset", false, false⟩]

/-- Method signatures of `WithHistoryExt` (state.rs lines 218-398): all
return plain values, none is async. -/
def withHistoryExtOps : List OpSig :=
  [⟨"history", false, false⟩, ⟨"last_event", false, false⟩,
   ⟨"clear_history", false, false⟩, ⟨"trim_history", false, false⟩,
   ⟨"since_last_event", false, false⟩, ⟨"since_key_pressed", false, false⟩,
   ⟨"delta_between", false, false⟩, ⟨"is_double_tap", false, false⟩,
   ⟨"average_press_interval", false, false⟩, ⟨"match_sequence", false, false⟩,
   ⟨"match_sequence_in_time", false, false⟩, ⟨"simultaneous_combo", false, false⟩,
   ⟨"find_last_n", false, false⟩, ⟨"keys_in_last", false, false⟩,
   ⟨"occurred_recently", false, false⟩, ⟨"count_recent", false, false⟩,
   ⟨"total_presses", false, false⟩, ⟨"press_frequency", false, false⟩,
   ⟨"most_frequent_key", false, false⟩, ⟨"average_input_speed", false, false⟩,
   ⟨"replay", false, false⟩, ⟨"undo_last", false, false⟩]

/-- Method signatures of `RuntimeExt` (runtime.rs lines 153-339): `new`,
`stop` and `restart` return `Result`; `initialize` and `run` return a
`Future` of a `Result` (runtime.rs lines 200-262). -/
def runtimeExtOps : List OpSig :=
  [⟨"new", true, false⟩, ⟨"initialize", true, true⟩, ⟨"run", true, true⟩,
   ⟨"stop", true, false⟩, ⟨"restart", true, false⟩, ⟨"is_running", false, false⟩,
   ⟨"events_processed", false, false⟩, ⟨"backend_name", false, false⟩,
   ⟨"reset_state", false, false⟩]

/-- Full operation surface declared by the crate: the three public traits. -/
def coreOps : List OpSig :=
  inputStateExtOps ++ withHistoryExtOps ++ runtimeExtOps

/-! ### The trait hierarchy as type classes

Transcribed from state.rs: `InputEvent` (lines 47-62) with associated types
`Key : Copy + PartialEq + Hash` and `State : Copy + PartialEq` and the event
itself `Hash + PartialEq + Clone`; `InputStateExt<K, S>` (lines 99-169) with
`K : Copy + PartialEq + Hash` and `S : Copy + PartialEq`;
`WithHistoryExt<K, S, T> : InputStateExt<K, S>` (lines 218-223) requiring
`T : InputEvent<Key = K, State = S>`.  `PartialEq` is modelled as
`DecidableEq`, `Hash` as `Hashable`; `Copy` and `Clone` have no content in a
value semantics and carry no constraint here.  `Duration` is modelled as
`Nat`, `f32` as `ℚ`, `&mut self` methods as state transformers. -/

/-- Rust trait `InputEvent` (state.rs lines 47-62): accessors to the key,
the state and the timestamp, with the associated types fixed to `Kc`, `Sc`. -/
class InputEventC (T : Type) (Kc : Type) (Sc : Type) [DecidableEq T] [Hashable T]
    [DecidableEq Kc] [Hashable Kc] [DecidableEq Sc] where
  key : T → Kc
  state : T → Sc
  timestamp : T → Nat

/-- Rust trait `InputStateExt<K, S>` (state.rs lines 99-169) over an
implementing type `I`. -/
class InputStateExtC (I : Type) (Kc : Type) (Sc : Type)
    [DecidableEq Kc] [Hashable Kc] [DecidableEq Sc] where
  set_key : I → Kc → Sc → I
  is_just_press : I → Kc → Bool
  is_pressed : I → Kc → Bool
  is_released : I → Kc → Bool
  is_just_released : I → Kc → Bool
  time_pressed : I → Kc → Option Nat
  active_combo : I → List Kc → Bool
  any_pressed : I → Bool
  last_pressed : I → Option Kc
  keys_pressed : I → List Kc
  reset : I → I

/-- Rust trait `WithHistoryExt<K, S, T> : InputStateExt<K, S>` (state.rs
lines 218-398): the supertrait bound is the `extends` clause, and the bound
`T : InputEvent<Key = K, State = S>` is the `InputEventC T Kc Sc` instance
argument sharing the same `Kc` and `Sc` as the supertrait. -/
class WithHistoryExtC (I : Type) (Kc : Type) (Sc : Type) (T : Type)
    [DecidableEq Kc] [Hashable Kc] [DecidableEq Sc] [DecidableEq T] [Hashable T]
    [InputEventC T Kc Sc] extends InputStateExtC I Kc Sc where
  history : I → List T
  last_event : I → Option T
  clear_history : I → I
  trim_history : I → Nat → I
  since_last_event : I → Nat
  since_key_pressed : I → Kc → Option Nat
  delta_between : I → Kc → Option Nat
  is_double_tap : I → Kc → Nat → Bool
  average_press_interval : I → Kc → Option Nat
  match_sequence : I → List Kc → Bool
  match_sequence_in_time : I → List Kc → Nat → Bool
  simultaneous_combo : I → List Kc → Nat → Bool
  find_last_n : I → Kc → Nat → List T
  keys_in_last : I → Nat → List Kc
  occurred_recently : I → Kc → Nat → Bool
  count_recent : I → Kc → Nat → Nat
  total_presses : I → Kc → Nat
  press_frequency : I → Kc → ℚ
  most_frequent_key : I → Option Kc
  average_input_speed : I → ℚ
  replay : I → List T
  undo_last : I → Option T × I

/-- Engine paired with the ambient monotonic clock, so that the clock-using
trait methods (which take no time argument in the source) can be
implemented. -/
structure Clocked (K : Type) where
  engine : Engine K
  now : Nat

instance instInputEventEvent {K : Type} [DecidableEq K] [Hashable K] :
    InputEventC (Event K) K PhysicalState where
  key := Event.key
  state := Event.state
  timestamp := Event.timestamp

instance instInputStateClocked {K : Type} [DecidableEq K] [Hashable K] :
    InputStateExtC (Clocked K) K PhysicalState where
  set_key c k s := ⟨c.engine.set_key k s c.now, c.now⟩
  is_just_press c k := c.engine.is_just_press k
  is_pressed c k := c.engine.is_pressed k
  is_released c k := c.engine.is_released k
  is_just_released c k := c.engine.is_just_released k
  time_pressed c k := c.engine.time_pressed c.now k
  active_combo c combo := c.engine.active_combo combo
  any_pressed c := c.engine.any_pressed
  last_pressed c := c.engine.last_pressed
  keys_pressed c := c.engine.keys_pressed
  reset c := ⟨c.engine.reset, c.now⟩

instance instWithHistoryClocked {K : Type} [DecidableEq K] [Hashable K] :
    WithHistoryExtC (Clocked K) K PhysicalState (Event K) where
  toInputStateExtC := instInputStateClocked
  history c := c.engine.history
  last_event c := c.engine.last_event
  clear_history c := ⟨c.engine.clear_history, c.now⟩
  trim_history c m := ⟨c.engine.trim_history m, c.now⟩
  since_last_event c := c.engine.since_last_event c.now
  since_key_pressed c k := c.engine.since_key_pressed c.now k
  delta_between c k := c.engine.delta_between k
  is_double_tap c k threshold := c.engine.is_double_tap k threshold
  average_press_interval c k := c.engine.average_press_interval k
  match_sequence c pattern := c.engine.match_sequence pattern
  match_sequence_in_time c pattern window := c.engine.match_sequence_in_time pattern window
  simultaneous_combo c combo tolerance := c.engine.simultaneous_combo combo tolerance
  find_last_n c k n := c.engine.find_last_n k n
  keys_in_last c d := c.engine.keys_in_last c.now d
  occurred_recently c k within := c.engine.occurred_recently k within
  count_recent c k within := c.engine.count_recent k within
  total_presses c k := c.engine.total_presses k
  press_frequency c k := c.engine.press_frequency c.now k
  most_frequent_key c := c.engine.most_frequent_key
  average_input_speed c := c.engine.average_input_speed c.now
  replay c := c.engine.replay
  undo_last c :=
    let p := c.engine.undo_last
    (p.1, ⟨p.2, c.now⟩)

/-! ## Helper lemmas -/

/-- A backward scan for the first match finds the last match of the forward
order. -/
theorem find?_reverse_getLast? {α : Type} (p : α → Bool) (l : List α) :
    l.reverse.find? p = (l.filter p).getLast? := by
  induction l using List.reverseRecOn with
  | nil => rfl
  | append_singleton l a ih =>
      cases h : p a with
      | true => simp [List.filter_append, h]
      | false => simpa [List.filter_append, h] using ih

/-- Correctness of the forward two-pointer scan: it accepts exactly the
subsequences of the stream. -/
theorem subseqScan_iff_sublist (l p : List K) :
    subseqScan p l = true ↔ List.Sublist p l := by
  induction l generalizing p with
  | nil =>
      cases p with
      | nil => simp [subseqScan]
      | cons x xs => simp [subseqScan]
  | cons k ks ih =>
      cases p with
      | nil => simp [subseqScan, List.nil_sublist]
      | cons x xs =>
          by_cases hx : x = k
          · subst hx
            rw [show subseqScan (x :: xs) (x :: ks) = subseqScan xs ks from by
              simp [subseqScan]]
            rw [ih, List.cons_sublist_cons]
          · rw [show subseqScan (x :: xs) (k :: ks) = subseqScan (x :: xs) ks from by
              simp [subseqScan, hx]]
            rw [ih]
            constructor
            · intro hsub
              exact hsub.cons k
            · intro hsub
              cases hsub with
              | cons _ h => exact h
              | cons₂ _ h => exact absurd rfl hx

/-- advance_tick rewrites the table row of every key by the edge collapse,
leaving lookup structure intact. -/
theorem entry_advance (e : Engine K) (k : K) :
    (e.advance_tick).entry k =
      (e.entry k).map (fun en =>
        { en with latched :=
            match en.latched with
            | LatchedState.JustPressed => LatchedState.Held
            | LatchedState.JustReleased => LatchedState.Released
            | s => s }) := by
  unfold Engine.entry Engine.advance_tick
  rw [List.find?_map]
  rfl

/-- undo_last leaves the history without its final event. -/
theorem undo_snd_history (e : Engine K) :
    (e.undo_last).2.history = e.history.dropLast := by
  rcases List.eq_nil_or_concat e.history with h | ⟨L, b, h⟩ <;>
    simp [Engine.undo_last, h, List.concat_eq_append]

/-- Chronological order is adjacent-pairs order, hence pairwise order by
transitivity. -/
theorem chronological_iff_pairwise (h : List (Event K)) :
    Chronological h ↔ List.Pairwise tsLE h :=
  List.chain'_iff_pairwise

/-! ## Claims -/

/-- C1: advance_tick collapses the latched state `JustPressed` to `Held` and
`JustReleased` to `Released` for every key, leaves the two stable states and
the event history untouched; it is the tick-boundary operation the
specification adds to the key-state interface. -/
theorem advance_tick_collapse (e : Engine K) (k : K) :
    ((e.latched k = LatchedState.JustPressed →
        (e.advance_tick).latched k = LatchedState.Held)
      ∧ (e.latched k = LatchedState.JustReleased →
        (e.advance_tick).latched k = LatchedState.Released)
      ∧ (e.latched k = LatchedState.Held →
        (e.advance_tick).latched k = LatchedState.Held)
      ∧ (e.latched k = LatchedState.Released →
        (e.advance_tick).latched k = LatchedState.Released))
    ∧ (e.advance_tick).history = e.history := by
  refine ⟨?_, rfl⟩
  unfold Engine.latched
  rw [entry_advance]
  cases e.entry k with
  | none => simp
  | some en => cases hl : en.latched <;> simp [hl]

/-- C1 witness: a concrete key just pressed at the current tick is held
after the tick boundary. -/
theorem advance_tick_collapse_witness :
    ((Engine.empty Nat).ingest 0 PhysicalState.Down 5).latched 0 = LatchedState.JustPressed
    ∧ (((Engine.empty Nat).ingest 0 PhysicalState.Down 5).advance_tick).latched 0
        = LatchedState.Held :=
  ⟨by decide,
   (advance_tick_collapse ((Engine.empty Nat).ingest 0 PhysicalState.Down 5) 0).1.1 (by decide)⟩

/-- C2: ingest is the single entry point taking a caller-supplied timestamp;
it performs exactly the set_key table update and the history append in one
step, and a subsequent query observes both: the appended event is the last
event and the key-state answer is the set_key answer. -/
theorem ingest_atomic (e : Engine K) (k : K) (s : PhysicalState) (t : Nat) :
    (e.ingest k s t).table = (e.set_key k s t).table
    ∧ (e.ingest k s t).lastPressedKey = (e.set_key k s t).lastPressedKey
    ∧ (e.ingest k s t).history = e.history ++ [⟨k, s, t⟩]
    ∧ (e.ingest k s t).last_event = some ⟨k, s, t⟩
    ∧ (e.ingest k s t).is_pressed k = (e.set_key k s t).is_pressed k := by
  refine ⟨rfl, rfl, rfl, ?_, rfl⟩
  exact List.getLast?_concat e.history

/-- C3 counterexample: the crate's trait surface does declare fallible and
asynchronous operations — RuntimeExt.initialize returns a Future of a
Result (runtime.rs lines 221-248), so the universal claim fails on it. -/
theorem core_ops_fallible_async_cx :
    (OpSig.mk "initialize" true true) ∈ coreOps
    ∧ (OpSig.mk "initialize" true true).fallible = true
    ∧ (OpSig.mk "initialize" true true).asynchronous = true
    ∧ ¬ (∀ op ∈ coreOps, op.fallible = false ∧ op.asynchronous = false) := by
  refine ⟨by decide, rfl, rfl, ?_⟩
  intro h
  exact absurd (h (OpSig.mk "initialize" true true) (by decide)).1 (by decide)

/-- C3 amended: no operation of the engine's state and history interfaces
(InputStateExt, WithHistoryExt) is fallible or asynchronous; the fallible
and asynchronous operations all belong to the runtime-lifecycle trait the
specification excludes from the core. -/
theorem engine_ops_infallible_sync :
    ∀ op ∈ inputStateExtOps ++ withHistoryExtOps,
      op.fallible = false ∧ op.asynchronous = false := by
  decide

/-- C3 witness: the amended statement instantiated at the match_sequence
method. -/
theorem engine_ops_infallible_sync_witness :
    (OpSig.mk "match_sequence" false false) ∈ inputStateExtOps ++ withHistoryExtOps
    ∧ (OpSig.mk "match_sequence" false false).fallible = false
    ∧ (OpSig.mk "match_sequence" false false).asynchronous = false :=
  ⟨by decide,
   (engine_ops_infallible_sync (OpSig.mk "match_sequence" false false) (by decide)).1,
   (engine_ops_infallible_sync (OpSig.mk "match_sequence" false false) (by decide)).2⟩

/-- C4: every temporal query of the history interface is pure — invoking it
returns its output and leaves the engine (key-state table and event history)
exactly as it was. -/
theorem temporal_queries_pure (q : QueryOp K) (e : Engine K) (now : Nat) :
    (run_query q e now).2 = e := by
  cases q <;> rfl

/-- C5: match_sequence accepts the empty pattern on every history, and
accepts exactly the patterns that occur as a subsequence of the
chronological stream of Down-state events. -/
theorem match_sequence_law (e : Engine K) (pattern : List K) :
    e.match_sequence [] = true
    ∧ (e.match_sequence pattern = true ↔ List.Sublist pattern (downKeys e.history)) :=
  ⟨by simp [Engine.match_sequence, subseqScan],
   subseqScan_iff_sublist (downKeys e.history) pattern⟩

/-- C6: adjacent events of the history are in non-decreasing timestamp
order, and every mutating operation preserves this — ingest under the
caller contract that its timestamp is not below the history, and the tick,
reset, clear, trim and undo operations unconditionally. -/
theorem history_monotone (op : MutOp K) (e : Engine K)
    (hok : tsOk op e) (hmono : Chronological e.history) :
    Chronological (applyMut op e).history := by
  cases op with
  | ingest k s t =>
      rw [chronological_iff_pairwise] at hmono ⊢
      show List.Pairwise tsLE (e.history ++ [⟨k, s, t⟩])
      rw [List.pairwise_append]
      refine ⟨hmono, by simp, ?_⟩
      intro x hx y hy
      rw [List.mem_singleton] at hy
      subst hy
      exact hok x hx
  | advance => exact hmono
  | reset => exact hmono
  | clear => exact List.chain'_nil
  | trim m =>
      rw [chronological_iff_pairwise] at hmono ⊢
      exact hmono.sublist (List.drop_sublist _ _)
  | undo =>
      rw [chronological_iff_pairwise] at hmono ⊢
      show List.Pairwise tsLE ((e.undo_last).2.history)
      rw [undo_snd_history]
      exact hmono.sublist (List.dropLast_sublist _)

/-- C6 witness: ingesting into the empty engine under the timestamp
contract yields a chronological history. -/
theorem history_monotone_witness :
    tsOk (MutOp.ingest 0 PhysicalState.Down 5) (Engine.empty Nat)
    ∧ Chronological (Engine.empty Nat).history
    ∧ Chronological (applyMut (MutOp.ingest 0 PhysicalState.Down 5) (Engine.empty Nat)).history :=
  ⟨fun ev hv => absurd hv (List.not_mem_nil ev),
   List.chain'_nil,
   history_monotone (MutOp.ingest 0 PhysicalState.Down 5) (Engine.empty Nat)
     (fun ev hv => absurd hv (List.not_mem_nil ev)) List.chain'_nil⟩

/-- C7: undo_last returns the newest event and removes exactly it, leaving
the key-state table untouched; on an empty history it returns none and
leaves the engine unchanged. -/
theorem undo_last_spec (e : Engine K) :
    (e.undo_last).1 = e.history.getLast?
    ∧ (e.undo_last).2.history = e.history.dropLast
    ∧ (e.undo_last).2.table = e.table
    ∧ (e.history = [] → e.undo_last = (none, e)) := by
  rcases List.eq_nil_or_concat e.history with h | ⟨L, b, h⟩ <;>
    refine ⟨?_, undo_snd_history e, ?_, ?_⟩ <;>
    simp [Engine.undo_last, h, List.concat_eq_append]

/-- C7 witness: undo_last on the empty engine returns none and the engine
unchanged. -/
theorem undo_last_spec_witness :
    (Engine.empty Nat).history = []
    ∧ (Engine.empty Nat).undo_last = (none, Engine.empty Nat) :=
  ⟨rfl, (undo_last_spec (Engine.empty Nat)).2.2.2 rfl⟩

/-- C8: since_key_pressed is none exactly when the history holds no
Down-state event for the key, and otherwise returns now minus the timestamp
of the most recent such event. -/
theorem since_key_pressed_spec (e : Engine K) (now : Nat) (k : K) :
    (e.since_key_pressed now k = none ↔
      ∀ ev ∈ e.history, ¬(ev.key = k ∧ ev.state = PhysicalState.Down))
    ∧ (∀ ev, (e.history.filter (downFor k)).getLast? = some ev →
        e.since_key_pressed now k = some (now - ev.timestamp)) := by
  constructor
  · have h1 : e.since_key_pressed now k = none ↔
        e.history.reverse.find? (downFor k) = none := by
      unfold Engine.since_key_pressed
      cases e.history.reverse.find? (downFor k) <;> simp
    rw [h1, List.find?_eq_none]
    constructor
    · intro h ev hm hkd
      exact h ev (List.mem_reverse.mpr hm) (by simp [downFor, hkd.1, hkd.2])
    · intro h ev hm hp
      have hkd : ev.key = k ∧ ev.state = PhysicalState.Down := by
        simpa [downFor] using hp
      exact h ev (List.mem_reverse.mp hm) hkd
  · intro ev hev
    unfold Engine.since_key_pressed
    rw [find?_reverse_getLast?, hev]

/-- C8 witness: with a Down event for key 0 at time 3 and a later Up event
for key 1, the query at time 10 returns 7 for key 0, and none for a key
with no Down event. -/
theorem since_key_pressed_spec_witness :
    ((((Engine.empty Nat).ingest 0 PhysicalState.Down 3).ingest
        1 PhysicalState.Up 4).history.filter (downFor 0)).getLast?
      = some ⟨0, PhysicalState.Down, 3⟩
    ∧ (((Engine.empty Nat).ingest 0 PhysicalState.Down 3).ingest
        1 PhysicalState.Up 4).since_key_pressed 10 0 = some 7 :=
  ⟨by decide,
   (since_key_pressed_spec
      (((Engine.empty Nat).ingest 0 PhysicalState.Down 3).ingest 1 PhysicalState.Up 4)
      10 0).2 ⟨0, PhysicalState.Down, 3⟩ (by decide)⟩

/-- C9: on an empty history, since_last_event returns the zero sentinel (a
total result), press_frequency returns zero for every key, and
most_frequent_key returns none. -/
theorem empty_history_defaults (e : Engine K) (now : Nat) (k : K)
    (h : e.history = []) :
    e.since_last_event now = 0
    ∧ e.press_frequency now k = 0
    ∧ e.most_frequent_key = none := by
  refine ⟨?_, ?_, ?_⟩ <;>
    simp [Engine.since_last_event, Engine.press_frequency, Engine.most_frequent_key,
      h, firstOccs, firstOccsAux]

/-- C9 witness: the empty engine at time 7. -/
theorem empty_history_defaults_witness :
    (Engine.empty Nat).history = []
    ∧ (Engine.empty Nat).since_last_event 7 = 0
    ∧ (Engine.empty Nat).press_frequency 7 0 = 0
    ∧ (Engine.empty Nat).most_frequent_key = none :=
  ⟨rfl,
   (empty_history_defaults (Engine.empty Nat) 7 0 rfl).1,
   (empty_history_defaults (Engine.empty Nat) 7 0 rfl).2.1,
   (empty_history_defaults (Engine.empty Nat) 7 0 rfl).2.2⟩

/-- C10: every implementation of the temporal-history interface over
key type Kc, state type Sc and an event type exposing exactly Kc and Sc is
in particular a full implementation of the current-state interface over the
same Kc and Sc (the supertrait projection), under the declared bounds:
equality and hashing for keys, equality for states. -/
theorem withHistory_implements_inputState
    (I Kc Sc T : Type) [DecidableEq Kc] [Hashable Kc] [DecidableEq Sc]
    [DecidableEq T] [Hashable T] [InputEventC T Kc Sc] :
    Nonempty (WithHistoryExtC I Kc Sc T) → Nonempty (InputStateExtC I Kc Sc) :=
  fun h => h.elim (fun w => ⟨w.toInputStateExtC⟩)

/-- C10 witness: the modelled clocked engine implements the temporal-history
interface, hence the current-state interface. -/
theorem withHistory_implements_inputState_witness :
    Nonempty (WithHistoryExtC (Clocked Nat) Nat PhysicalState (Event Nat))
    ∧ Nonempty (InputStateExtC (Clocked Nat) Nat PhysicalState) :=
  ⟨⟨instWithHistoryClocked⟩,
   withHistory_implements_inputState (Clocked Nat) Nat PhysicalState (Event Nat)
     ⟨instWithHistoryClocked⟩⟩

end Orbit
